import Mathlib

/-!
# pginstall client: archive installer core

A shallow embedding of `src/client/pgarchive.c` (archive naming, path
remapping, the extraction loop) and of the catalog merge of
`src/client/fun.c` (`pginstall_available_extensions`), followed by the
properties proved about them.

C strings are modelled by the list of their bytes in front of the
terminating NUL, every byte written as the `Char` of that code: the end of
the list stands for the terminator.
-/

namespace PgInstall

/-! ## C strings and the libc / PostgreSQL string helpers -/

/-- The bytes of a C string in front of its terminating NUL. -/
abbrev CString := List Char

/-- The libc `strlen`. -/
def strlen (s : CString) : Nat := s.length

/-- The libc `strcmp`: zero when both strings end together, otherwise the
sign of the first differing byte pair; the terminator is below every byte
of a string. -/
def strcmp : CString → CString → Int
  | [], [] => 0
  | [], _ :: _ => -1
  | _ :: _, [] => 1
  | a :: as, b :: bs =>
    if a = b then strcmp as bs
    else if a.toNat < b.toNat then -1 else 1

/-- The libc `strncmp`: as `strcmp`, on at most `n` bytes. -/
def strncmp : CString → CString → Nat → Int
  | _, _, 0 => 0
  | [], [], _ + 1 => 0
  | [], _ :: _, _ + 1 => -1
  | _ :: _, [], _ + 1 => 1
  | a :: as, b :: bs, n + 1 =>
    if a = b then strncmp as bs n
    else if a.toNat < b.toNat then -1 else 1

/-- The PostgreSQL `pstrdup`: a fresh copy of the string. -/
def pstrdup (s : CString) : CString := s

/-! ## `escape_filename` (pgarchive.c) -/

/-- The `for (i = 0; i < len; i++)` loop of `escape_filename`: the first
argument is `len - i`, the number of iterations left, the second is `i` and
`result` is the buffer. -/
def escape_filename_loop : Nat → Nat → CString → CString
  | 0, _, result => result
  | todo + 1, i, result =>
    if result.getD i '\x00' = ' ' then
      escape_filename_loop todo (i + 1) (result.set i '_')
    else
      escape_filename_loop todo (i + 1) result

/-- The function `escape_filename`: duplicate the string, then overwrite
each space of the copy with an underscore. -/
def escape_filename (str : CString) : CString :=
  let len := strlen str
  let result := pstrdup str
  escape_filename_loop len 0 result

/-! ## Configuration and platform -/

/-- The configuration variables of the extension that the two files read
(`pginstall_archive_dir`, `pginstall_control_dir`, `pginstall_extension_dir`,
`pginstall_repository`, `pginstall_serve_from_archive_dir`); a NULL
`pginstall_repository` is `none`. -/
structure Settings where
  pginstall_archive_dir : CString
  pginstall_control_dir : CString
  pginstall_extension_dir : CString
  pginstall_repository : Option CString
  pginstall_serve_from_archive_dir : Bool
deriving DecidableEq, Repr

/-- The fields of `PlatformData` that the two files read. -/
structure PlatformData where
  os_name : CString
  os_version : CString
  arch : CString
deriving DecidableEq, Repr

/-! ## `compute_target_path` (pgarchive.c) -/

/-- The function `compute_target_path`; `psprintf("%s/%s", d, f)` is the
concatenation of `d`, a slash and `f`. -/
def compute_target_path (cfg : Settings) (filename control_filename : CString)
    (control_filename_len : Nat) : CString :=
  if strncmp filename control_filename control_filename_len = 0 then
    cfg.pginstall_control_dir ++ "/".toList ++ filename
  else
    cfg.pginstall_extension_dir ++ "/".toList ++ filename

/-! ## The libarchive interface seen by `extract` -/

/-- The libarchive status `ARCHIVE_EOF`. -/
def ARCHIVE_EOF : Int := 1

/-- The libarchive status `ARCHIVE_OK`. -/
def ARCHIVE_OK : Int := 0

/-- The libarchive flag `ARCHIVE_EXTRACT_TIME`. -/
def ARCHIVE_EXTRACT_TIME : Int := 4

/-- Severity of a PostgreSQL report. -/
inductive Elevel
  | DEBUG1
  | WARNING
  | ERROR
deriving DecidableEq, Repr

/-- The SQLSTATE classes used by the reports of `pgarchive.c`. -/
inductive Errcode
  | ERRCODE_INVALID_PARAMETER_VALUE
  | ERRCODE_UNDEFINED_FILE
  | ERRCODE_IO_ERROR
deriving DecidableEq, Repr

/-- One data block of an archive entry as the library hands it out:
the status of `archive_read_data_block`, the block and its offset, and the
status `archive_write_data_block` answers when that block is written. -/
structure DataBlock where
  read_r : Int
  buff : List Nat
  offset : Int
  write_r : Int
deriving DecidableEq, Repr

/-- One header of the archive stream with what the library answers for
it: the status of `archive_read_next_header`, the entry pathname, the status
of `archive_write_header`, the data blocks, the status of
`archive_write_finish_entry`. -/
structure ArchiveEntry where
  header_r : Int
  pathname : CString
  write_header_r : Int
  blocks : List DataBlock
  finish_r : Int
deriving DecidableEq, Repr

/-- An archive file as the library presents it: the status of
`archive_read_open_filename` and the headers in stream order; past the last
one `archive_read_next_header` answers `ARCHIVE_EOF`, and past the last block
of an entry `archive_read_data_block` answers `ARCHIVE_EOF`. -/
structure Archive where
  open_r : Int
  entries : List ArchiveEntry
deriving DecidableEq, Repr

/-- The calls `extract` can make on the reader handle `a`, on the
disk-writer handle `ext` and on the report channel, with their arguments and
statuses. `archive_write_close` and `archive_write_free` are the library
calls that close and release a writer handle. -/
inductive Event
  | archive_read_new
  | archive_write_disk_new
  | archive_write_disk_set_options (flags : Int)
  | archive_read_support_format_tar
  | archive_read_support_filter_gzip
  | archive_read_open_filename (filename : CString) (block_size : Nat) (r : Int)
  | elog (level : Elevel)
  | archive_read_next_header (r : Int)
  | archive_entry_clone
  | archive_entry_set_pathname (path : CString)
  | archive_write_header (path : CString) (r : Int)
  | archive_read_data_block (r : Int)
  | archive_write_data_block (buff : List Nat) (offset : Int) (r : Int)
  | archive_write_finish_entry (r : Int)
  | archive_entry_free
  | archive_read_close
  | archive_read_free
  | archive_write_close
  | archive_write_free
  | ereport (level : Elevel) (code : Errcode)
deriving DecidableEq, Repr

/-- How a call ends: a normal return, or a PostgreSQL `ERROR` report,
which leaves the function at once. -/
inductive Outcome
  | returned
  | error (code : Errcode)
deriving DecidableEq, Repr

/-! ## `copy_data` and `extract` (pgarchive.c) -/

/-- The function `copy_data`: the calls made and the status returned. -/
def copy_data : List DataBlock → List Event × Int
  | [] => ([Event.archive_read_data_block ARCHIVE_EOF], ARCHIVE_OK)
  | b :: rest =>
    if b.read_r = ARCHIVE_EOF then
      ([Event.archive_read_data_block b.read_r], ARCHIVE_OK)
    else if b.read_r ≠ ARCHIVE_OK then
      ([Event.archive_read_data_block b.read_r], b.read_r)
    else if b.write_r ≠ ARCHIVE_OK then
      ([Event.archive_read_data_block b.read_r,
        Event.archive_write_data_block b.buff b.offset b.write_r,
        Event.ereport Elevel.WARNING Errcode.ERRCODE_IO_ERROR], b.write_r)
    else
      let next := copy_data rest
      (Event.archive_read_data_block b.read_r ::
        Event.archive_write_data_block b.buff b.offset b.write_r :: next.1,
       next.2)

/-- The `for (;;)` loop of `extract` run on the headers still to come:
the calls made and how the loop is left. -/
def extract_loop (cfg : Settings) (control_filename : CString) (cflen : Nat) :
    List ArchiveEntry → List Event × Outcome
  | [] => ([Event.archive_read_next_header ARCHIVE_EOF], Outcome.returned)
  | e :: rest =>
    if e.header_r = ARCHIVE_EOF then
      ([Event.archive_read_next_header e.header_r], Outcome.returned)
    else if e.header_r ≠ ARCHIVE_OK then
      ([Event.archive_read_next_header e.header_r,
        Event.ereport Elevel.ERROR Errcode.ERRCODE_UNDEFINED_FILE],
       Outcome.error Errcode.ERRCODE_UNDEFINED_FILE)
    else
      let path := compute_target_path cfg e.pathname control_filename cflen
      let head := [Event.archive_read_next_header e.header_r,
        Event.archive_entry_clone,
        Event.archive_entry_set_pathname path,
        Event.elog Elevel.DEBUG1,
        Event.archive_write_header path e.write_header_r]
      if e.write_header_r ≠ ARCHIVE_OK then
        let next := extract_loop cfg control_filename cflen rest
        (head ++ [Event.ereport Elevel.WARNING Errcode.ERRCODE_IO_ERROR,
                  Event.archive_entry_free] ++ next.1, next.2)
      else
        let copied := (copy_data e.blocks).1
        if e.finish_r ≠ ARCHIVE_OK then
          (head ++ copied ++ [Event.archive_write_finish_entry e.finish_r,
            Event.ereport Elevel.ERROR Errcode.ERRCODE_IO_ERROR],
           Outcome.error Errcode.ERRCODE_IO_ERROR)
        else
          let next := extract_loop cfg control_filename cflen rest
          (head ++ copied ++ [Event.archive_write_finish_entry e.finish_r,
            Event.archive_entry_free] ++ next.1, next.2)

/-- The calls of `extract` up to and including the open of the archive. -/
def extract_setup (filename : CString) (ar : Archive) : List Event :=
  [Event.archive_read_new,
   Event.archive_write_disk_new,
   Event.archive_write_disk_set_options ARCHIVE_EXTRACT_TIME,
   Event.archive_read_support_format_tar,
   Event.archive_read_support_filter_gzip,
   Event.archive_read_open_filename filename 10240 ar.open_r]

/-- The function `extract` run on the archive `ar` found under `filename`:
the calls made, in order, and how the function is left. -/
def extract (cfg : Settings) (extname filename : CString) (ar : Archive) :
    List Event × Outcome :=
  let control_filename := extname ++ ".control".toList
  let cflen := strlen control_filename
  if ar.open_r ≠ 0 then
    (extract_setup filename ar ++
      [Event.ereport Elevel.ERROR Errcode.ERRCODE_INVALID_PARAMETER_VALUE],
     Outcome.error Errcode.ERRCODE_INVALID_PARAMETER_VALUE)
  else
    match extract_loop cfg control_filename cflen ar.entries with
    | (calls, Outcome.returned) =>
      (extract_setup filename ar ++ [Event.elog Elevel.DEBUG1] ++ calls ++
        [Event.archive_read_close, Event.archive_read_free], Outcome.returned)
    | (calls, Outcome.error code) =>
      (extract_setup filename ar ++ [Event.elog Elevel.DEBUG1] ++ calls,
       Outcome.error code)

/-! ## The archive file name of `download_and_unpack_archive` (pgarchive.c) -/

/-- The value `download_and_unpack_archive` gives its local
`archive_filename`: the `psprintf` of format
`"%s/%s--%s--%s--%s--%s.tar.gz"`; `PG_VERSION` is the server version string
the file is compiled against. -/
def archive_filename (cfg : Settings) (PG_VERSION : CString)
    (platform : PlatformData) (extname : CString) : CString :=
  cfg.pginstall_archive_dir ++ "/".toList ++ extname ++ "--".toList ++
    PG_VERSION ++ "--".toList ++ escape_filename platform.os_name ++
    "--".toList ++ escape_filename platform.os_version ++ "--".toList ++
    escape_filename platform.arch ++ ".tar.gz".toList

/-! ## The catalog merge of `pginstall_available_extensions` (fun.c) -/

/-- The fields of `pginstall_extension` read by `fun.c`; `id` is `-1`
and `fullname`, `description` are NULL when absent. -/
structure pginstall_extension where
  id : Int
  shortname : CString
  fullname : Option CString
  uri : CString
  description : Option CString
deriving DecidableEq, Repr

/-- The inner `foreach(lc2, extensions)` loop for the repository entry
`ext`, on the cells of `extensions` still to visit: the lists `keep` and the
flag `keep_this_one` when the loop is left. -/
def merge_inner (ext : pginstall_extension) :
    List pginstall_extension → List pginstall_extension → Bool →
    List pginstall_extension × Bool
  | [], keep, keep_this_one => (keep, keep_this_one)
  | ext2 :: rest, keep, keep_this_one =>
    if strcmp ext.shortname ext2.shortname = 0 then
      (keep, false)
    else
      merge_inner ext rest (if keep_this_one then keep ++ [ext] else keep)
        keep_this_one

/-- The outer `foreach(lc, repo_exts)` loop: the list `keep` when it
ends. -/
def merge_outer (extensions : List pginstall_extension) :
    List pginstall_extension → List pginstall_extension →
    List pginstall_extension
  | [], keep => keep
  | ext :: rest, keep =>
    merge_outer extensions rest (merge_inner ext extensions keep true).1

/-- The test `pginstall_repository != NULL &&
strcmp(pginstall_repository, "") != 0`. -/
def repository_set (cfg : Settings) : Bool :=
  match cfg.pginstall_repository with
  | none => false
  | some repository => decide (strcmp repository "".toList ≠ 0)

/-- The list `extensions` that `pginstall_available_extensions` builds
(and then stores row by row); `archive_dir_exts` is what
`list_available_extensions_in_archive_dir` answers and `repo_exts` what
`list_available_extensions_on_repository` answers. -/
def pginstall_available_extensions (cfg : Settings)
    (archive_dir_exts repo_exts : List pginstall_extension) :
    List pginstall_extension :=
  let extensions :=
    if cfg.pginstall_serve_from_archive_dir then archive_dir_exts else []
  if repository_set cfg then
    if extensions = [] then repo_exts
    else extensions ++ merge_outer extensions repo_exts []
  else extensions

/-! ## The properties as the specification words them -/

/-- The character map the specification gives for escaping: a space
becomes an underscore, every other character stays. -/
def escape_char (c : Char) : Char := if c = ' ' then '_' else c

/-- The merge rule of the specification: every cache entry, then every
repository entry whose shortname equals the shortname of no cache entry. -/
def merge_rule (cache repo : List pginstall_extension) :
    List pginstall_extension :=
  cache ++ repo.filter (fun r => decide (∀ c ∈ cache, c.shortname ≠ r.shortname))

/-- The number of cache entries in front of the first one whose shortname
equals that of `r`, or the length of the cache when there is none. -/
def copies (cache : List pginstall_extension) (r : pginstall_extension) : Nat :=
  cache.findIdx (fun c => decide (c.shortname = r.shortname))

/-- An extension entry with the given shortname and uri and nothing else. -/
def mk_ext (shortname uri : String) : pginstall_extension :=
  { id := -1, shortname := shortname.toList, fullname := none,
    uri := uri.toList, description := none }

/-- A configuration with the archive directory and the repository both in
use. -/
def both_sources : Settings :=
  { pginstall_archive_dir := "/var/cache/pginstall".toList,
    pginstall_control_dir := "/usr/share/extension".toList,
    pginstall_extension_dir := "/usr/lib/pginstall".toList,
    pginstall_repository := some "http://localhost:8042/".toList,
    pginstall_serve_from_archive_dir := true }

/-- A configuration whose control directory and extension directory are
the same directory. -/
def one_directory : Settings :=
  { pginstall_archive_dir := "/var/cache/pginstall".toList,
    pginstall_control_dir := "/d".toList,
    pginstall_extension_dir := "/d".toList,
    pginstall_repository := none,
    pginstall_serve_from_archive_dir := true }

/-- The write operations on the disk-writer handle: header write, data
block write, finish entry. -/
def is_write_op : Event → Bool
  | Event.archive_write_header _ _ => true
  | Event.archive_write_data_block _ _ _ => true
  | Event.archive_write_finish_entry _ => true
  | _ => false

/-- The steps whose failure is fatal: an open that does not answer zero,
a header read that answers neither `ARCHIVE_OK` nor `ARCHIVE_EOF`, a finish
entry that does not answer `ARCHIVE_OK`. -/
def is_fatal_step : Event → Bool
  | Event.archive_read_open_filename _ _ r => decide (r ≠ 0)
  | Event.archive_read_next_header r =>
    decide (r ≠ ARCHIVE_OK ∧ r ≠ ARCHIVE_EOF)
  | Event.archive_write_finish_entry r => decide (r ≠ ARCHIVE_OK)
  | _ => false

/-- The calls that copy the data of an entry or finish it. -/
def is_copy_or_finish : Event → Bool
  | Event.archive_read_data_block _ => true
  | Event.archive_write_data_block _ _ _ => true
  | Event.archive_write_finish_entry _ => true
  | _ => false

/-- The calls the specification gives one entry of an archive whose
header was read: header write, then either a warning alone when the header
write failed, or the data copy and the finish entry. -/
def entry_calls (cfg : Settings) (extname : CString) (e : ArchiveEntry) :
    List Event :=
  [Event.archive_read_next_header ARCHIVE_OK,
   Event.archive_entry_clone,
   Event.archive_entry_set_pathname
     (compute_target_path cfg e.pathname (extname ++ ".control".toList)
       (strlen (extname ++ ".control".toList))),
   Event.elog Elevel.DEBUG1,
   Event.archive_write_header
     (compute_target_path cfg e.pathname (extname ++ ".control".toList)
       (strlen (extname ++ ".control".toList))) e.write_header_r] ++
  if e.write_header_r = ARCHIVE_OK then
    (copy_data e.blocks).1 ++
      [Event.archive_write_finish_entry ARCHIVE_OK, Event.archive_entry_free]
  else
    [Event.ereport Elevel.WARNING Errcode.ERRCODE_IO_ERROR,
     Event.archive_entry_free]

/-- An entry of one data block whose reads and writes all succeed. -/
def good_entry (pathname : String) : ArchiveEntry :=
  { header_r := ARCHIVE_OK, pathname := pathname.toList,
    write_header_r := ARCHIVE_OK,
    blocks := [{ read_r := ARCHIVE_OK, buff := [1, 2, 3], offset := 0,
                 write_r := ARCHIVE_OK }],
    finish_r := ARCHIVE_OK }

/-- An archive of three entries; the header write of the second one
fails with `ARCHIVE_FAILED` (-25). -/
def three_entries : Archive :=
  { open_r := 0,
    entries := [good_entry "foo.control",
      { good_entry "foo/foo.so" with write_header_r := -25 },
      good_entry "foo/foo--1.0.sql"] }

/-- An archive that opens and holds no entry. -/
def empty_archive : Archive := { open_r := 0, entries := [] }

/-- The two library calls that close and release a writer handle. -/
def is_writer_release : Event → Bool
  | Event.archive_write_close => true
  | Event.archive_write_free => true
  | _ => false

/-- The two ways a run of the extraction loop can look: it returns and
no fatal step was made, or it ends on a fatal header read or finish entry
followed by the `ERROR` report, with no fatal step before. -/
def loop_shape (run : List Event × Outcome) : Prop :=
  (run.2 = Outcome.returned ∧ ∀ ev ∈ run.1, is_fatal_step ev = false) ∨
  (∃ code pre step,
    run.2 = Outcome.error code ∧
    run.1 = pre ++ [step, Event.ereport Elevel.ERROR code] ∧
    (∀ ev ∈ pre, is_fatal_step ev = false) ∧
    ((∃ r, step = Event.archive_read_next_header r ∧
        r ≠ ARCHIVE_OK ∧ r ≠ ARCHIVE_EOF) ∨
     (∃ r, step = Event.archive_write_finish_entry r ∧ r ≠ ARCHIVE_OK)))

/-- An entry the loop gets past: its header read answers `ARCHIVE_OK`
and, when its header write answers `ARCHIVE_OK` too, so does its finish
entry. -/
abbrev entry_passes (e : ArchiveEntry) : Prop :=
  e.header_r = ARCHIVE_OK ∧
    (e.write_header_r = ARCHIVE_OK → e.finish_r = ARCHIVE_OK)

/-- An archive whose second header read fails with `ARCHIVE_FATAL`
(-30); a third entry follows. -/
def bad_header_archive : Archive :=
  { open_r := 0,
    entries := [good_entry "foo.control",
      { good_entry "foo/foo.so" with header_r := -30 },
      good_entry "foo/foo--1.0.sql"] }

/-- An archive whose second entry cannot be finished (`ARCHIVE_FAILED`,
-25); a third entry follows. -/
def bad_finish_archive : Archive :=
  { open_r := 0,
    entries := [good_entry "foo.control",
      { good_entry "foo/foo.so" with finish_r := -25 },
      good_entry "foo/foo--1.0.sql"] }

/-- An archive file that cannot be opened (`ARCHIVE_FATAL`, -30). -/
def unopened_archive : Archive :=
  { open_r := -30, entries := [good_entry "foo.control"] }

/-! ## Facts about the string helpers -/

theorem strcmp_eq_zero_iff (a b : CString) : strcmp a b = 0 ↔ a = b := by
  induction a generalizing b with
  | nil => cases b <;> simp [strcmp]
  | cons x xs ih =>
    cases b with
    | nil => simp [strcmp]
    | cons y ys =>
      by_cases hxy : x = y
      · simp [strcmp, hxy, ih]
      · by_cases hlt : x.toNat < y.toNat <;> simp [strcmp, hxy, hlt]

theorem strncmp_eq_zero_iff (a b : CString) (n : Nat) :
    strncmp a b n = 0 ↔ a.take n = b.take n := by
  induction n generalizing a b with
  | zero => simp [strncmp]
  | succ n ih =>
    cases a with
    | nil => cases b <;> simp [strncmp]
    | cons x xs =>
      cases b with
      | nil => simp [strncmp]
      | cons y ys =>
        by_cases hxy : x = y
        · simp [strncmp, hxy, ih]
        · by_cases hlt : x.toNat < y.toNat <;> simp [strncmp, hxy, hlt]

theorem strncmp_strlen_eq_zero_iff (a b : CString) :
    strncmp a b (strlen b) = 0 ↔ b <+: a := by
  rw [strncmp_eq_zero_iff, List.prefix_iff_eq_take]
  simp [strlen, eq_comm]

theorem escape_filename_loop_eq (pre rest : CString) :
    escape_filename_loop rest.length pre.length (pre ++ rest) =
      pre ++ rest.map escape_char := by
  induction rest generalizing pre with
  | nil => simp [escape_filename_loop]
  | cons c rest ih =>
    have hget : (pre ++ c :: rest).getD pre.length '\x00' = c := by
      rw [List.getD_eq_getElem?_getD, List.getElem?_append_right (le_refl _)]
      simp
    have hset : ∀ x : Char,
        (pre ++ c :: rest).set pre.length x = (pre ++ [x]) ++ rest := by
      intro x
      simp [List.set_append]
    have hlen : ∀ x : Char, pre.length + 1 = (pre ++ [x]).length := by simp
    rw [List.length_cons, escape_filename_loop, hget]
    by_cases hc : c = ' '
    · rw [if_pos hc, hset '_', hlen '_', ih]
      simp [escape_char, hc]
    · rw [if_neg hc]
      have hsame : pre ++ c :: rest = (pre ++ [c]) ++ rest := by simp
      rw [hsame, hlen c, ih]
      simp [escape_char, hc]

theorem escape_filename_eq_map (s : CString) :
    escape_filename s = s.map escape_char := by
  have h := escape_filename_loop_eq [] s
  simpa [escape_filename, strlen, pstrdup] using h

/-! ## Facts about the merge loops -/

theorem copies_cons (c : pginstall_extension) (cache : List pginstall_extension)
    (r : pginstall_extension) :
    copies (c :: cache) r =
      if c.shortname = r.shortname then 0 else copies cache r + 1 := by
  unfold copies
  rw [List.findIdx_cons]
  by_cases h : c.shortname = r.shortname <;> simp [h]

theorem merge_inner_eq (ext : pginstall_extension)
    (extensions keep : List pginstall_extension) :
    (merge_inner ext extensions keep true).1 =
      keep ++ List.replicate (copies extensions ext) ext := by
  induction extensions generalizing keep with
  | nil => simp [merge_inner, copies]
  | cons ext2 rest ih =>
    rw [merge_inner, copies_cons]
    by_cases h : ext.shortname = ext2.shortname
    · have h0 : strcmp ext.shortname ext2.shortname = 0 :=
        (strcmp_eq_zero_iff _ _).2 h
      rw [if_pos h0, if_pos h.symm]
      simp
    · have h0 : ¬ strcmp ext.shortname ext2.shortname = 0 :=
        fun hz => h ((strcmp_eq_zero_iff _ _).1 hz)
      have h1 : ¬ ext2.shortname = ext.shortname := fun e => h e.symm
      rw [if_neg h0, if_neg h1, if_pos rfl, ih, List.replicate_succ]
      simp

theorem merge_outer_eq (extensions repo keep : List pginstall_extension) :
    merge_outer extensions repo keep =
      keep ++ repo.flatMap (fun r => List.replicate (copies extensions r) r) := by
  induction repo generalizing keep with
  | nil => simp [merge_outer]
  | cons ext rest ih =>
    rw [merge_outer, ih, merge_inner_eq, List.flatMap_cons]
    simp

theorem available_extensions_of_nonempty (cfg : Settings)
    (cache repo : List pginstall_extension)
    (hserve : cfg.pginstall_serve_from_archive_dir = true)
    (hrepo : repository_set cfg = true) (hne : cache ≠ []) :
    pginstall_available_extensions cfg cache repo =
      cache ++ repo.flatMap (fun r => List.replicate (copies cache r) r) := by
  simp [pginstall_available_extensions, hserve, hrepo, hne, merge_outer_eq]

theorem flatMap_copies_singleton (c : pginstall_extension)
    (repo : List pginstall_extension) :
    repo.flatMap (fun r => List.replicate (copies [c] r) r) =
      repo.filter (fun r => decide (∀ c' ∈ [c], c'.shortname ≠ r.shortname)) := by
  induction repo with
  | nil => simp
  | cons r rest ih =>
    rw [List.flatMap_cons, ih, copies_cons]
    by_cases h : c.shortname = r.shortname
    · simp [h]
    · simp [h, copies]

/-! ## Filename escaping and the archive file name -/

/-- C7. `escape_filename` keeps the length of its argument and holds at
every index the underscore where the argument holds a space and the
argument's own character elsewhere; its result holds no space and escaping
it again changes nothing. -/
theorem escape_filename_pointwise (s : CString) :
    (escape_filename s).length = s.length ∧
    (∀ i : Nat, (escape_filename s)[i]? =
      (s[i]?).map (fun c => if c = ' ' then '_' else c)) ∧
    ' ' ∉ escape_filename s ∧
    escape_filename (escape_filename s) = escape_filename s := by
  have hmap : ∀ t : CString, escape_filename t = t.map escape_char :=
    escape_filename_eq_map
  refine ⟨?_, ?_, ?_, ?_⟩
  · simp [hmap]
  · intro i
    rw [hmap, List.getElem?_map]
    rfl
  · rw [hmap, List.mem_map]
    rintro ⟨c, _, hc⟩
    unfold escape_char at hc
    by_cases h : c = ' '
    · rw [if_pos h] at hc
      exact absurd hc (by decide)
    · rw [if_neg h] at hc
      exact h hc
  · rw [hmap, hmap, List.map_map]
    apply List.map_congr_left
    intro c _
    show escape_char (escape_char c) = escape_char c
    unfold escape_char
    by_cases h : c = ' '
    · simp [h]
    · simp [h]

/-- C3. The archive path built by `download_and_unpack_archive` is the
archive directory, a slash, then extname, server version and the three
escaped platform fields joined by `--`, then `.tar.gz`; extname and server
version are not escaped. For "foo", "16" and Linux / Ubuntu 22.04 / x86_64
the file name is "foo--16--Linux--Ubuntu_22.04--x86_64.tar.gz". -/
theorem archive_filename_format (cfg : Settings) (server_version : CString)
    (platform : PlatformData) (extname : CString) :
    archive_filename cfg server_version platform extname =
      cfg.pginstall_archive_dir ++ "/".toList ++
        (extname ++ "--".toList ++ server_version ++ "--".toList ++
          platform.os_name.map escape_char ++ "--".toList ++
          platform.os_version.map escape_char ++ "--".toList ++
          platform.arch.map escape_char ++ ".tar.gz".toList) ∧
    archive_filename cfg "16".toList
        { os_name := "Linux".toList, os_version := "Ubuntu 22.04".toList,
          arch := "x86_64".toList } "foo".toList =
      cfg.pginstall_archive_dir ++ "/".toList ++
        "foo--16--Linux--Ubuntu_22.04--x86_64.tar.gz".toList := by
  constructor
  · simp [archive_filename, escape_filename_eq_map]
  · simp [archive_filename, escape_filename_eq_map, escape_char]

/-! ## Path remapping -/

/-- C4 as worded fails when the two directories are one: with the
control directory and the extension directory both "/d", the entry "x" of
the extension "e" is returned as "/d/x", which is the control directory, a
slash and the entry path, although "e.control" is not a prefix of "x". -/
theorem compute_target_path_iff_fails :
    compute_target_path one_directory "x".toList
        ("e".toList ++ ".control".toList)
        (strlen ("e".toList ++ ".control".toList)) =
      one_directory.pginstall_control_dir ++ "/".toList ++ "x".toList ∧
    ¬ ("e".toList ++ ".control".toList) <+: "x".toList ∧
    ¬ (compute_target_path one_directory "x".toList
          ("e".toList ++ ".control".toList)
          (strlen ("e".toList ++ ".control".toList)) =
        one_directory.pginstall_control_dir ++ "/".toList ++ "x".toList ↔
      ("e".toList ++ ".control".toList) <+: "x".toList) := by
  decide

/-- C4, amended. As called by `extract`, `compute_target_path` returns the
control directory, a slash and the entry path when extname ++ ".control" is
a byte prefix of the entry path, and the extension directory, a slash and
the entry path otherwise; when the two directories differ the first form is
returned if and only if the prefix test holds. A path shorter than the
control file name goes to the extension directory, and one whose first
`cflen` bytes are the control file name goes to the control directory. -/
theorem compute_target_path_spec (cfg : Settings) (p e : CString) :
    ((e ++ ".control".toList) <+: p →
      compute_target_path cfg p (e ++ ".control".toList)
          (strlen (e ++ ".control".toList)) =
        cfg.pginstall_control_dir ++ "/".toList ++ p) ∧
    (¬ (e ++ ".control".toList) <+: p →
      compute_target_path cfg p (e ++ ".control".toList)
          (strlen (e ++ ".control".toList)) =
        cfg.pginstall_extension_dir ++ "/".toList ++ p) ∧
    (cfg.pginstall_control_dir ≠ cfg.pginstall_extension_dir →
      (compute_target_path cfg p (e ++ ".control".toList)
          (strlen (e ++ ".control".toList)) =
        cfg.pginstall_control_dir ++ "/".toList ++ p ↔
      (e ++ ".control".toList) <+: p)) ∧
    (p.length < (e ++ ".control".toList).length →
      compute_target_path cfg p (e ++ ".control".toList)
          (strlen (e ++ ".control".toList)) =
        cfg.pginstall_extension_dir ++ "/".toList ++ p) ∧
    (p.take (e ++ ".control".toList).length = e ++ ".control".toList →
      compute_target_path cfg p (e ++ ".control".toList)
          (strlen (e ++ ".control".toList)) =
        cfg.pginstall_control_dir ++ "/".toList ++ p) := by
  have hyes : (e ++ ".control".toList) <+: p →
      compute_target_path cfg p (e ++ ".control".toList)
          (strlen (e ++ ".control".toList)) =
        cfg.pginstall_control_dir ++ "/".toList ++ p := by
    intro hp
    unfold compute_target_path
    rw [if_pos ((strncmp_strlen_eq_zero_iff _ _).2 hp)]
  have hno : ¬ (e ++ ".control".toList) <+: p →
      compute_target_path cfg p (e ++ ".control".toList)
          (strlen (e ++ ".control".toList)) =
        cfg.pginstall_extension_dir ++ "/".toList ++ p := by
    intro hp
    unfold compute_target_path
    rw [if_neg (fun hz => hp ((strncmp_strlen_eq_zero_iff _ _).1 hz))]
  refine ⟨hyes, hno, ?_, ?_, ?_⟩
  · intro hdir
    constructor
    · intro heq
      by_contra hp
      rw [hno hp, List.append_assoc, List.append_assoc] at heq
      exact hdir (List.append_cancel_right heq).symm
    · exact hyes
  · intro hlt
    apply hno
    intro hp
    have := hp.length_le
    omega
  · intro htake
    apply hyes
    rw [List.prefix_iff_eq_take]
    exact htake.symm

/-- The three entry paths named with C4 for the extension "pgcrypto":
"pgcrypto.control" and "pgcrypto.control_backup" go under the control
directory, "pgcrypto/lib.so" under the extension directory. -/
theorem compute_target_path_spec_witness :
    compute_target_path both_sources "pgcrypto.control".toList
        ("pgcrypto".toList ++ ".control".toList)
        (strlen ("pgcrypto".toList ++ ".control".toList)) =
      "/usr/share/extension".toList ++ "/".toList ++ "pgcrypto.control".toList ∧
    compute_target_path both_sources "pgcrypto.control_backup".toList
        ("pgcrypto".toList ++ ".control".toList)
        (strlen ("pgcrypto".toList ++ ".control".toList)) =
      "/usr/share/extension".toList ++ "/".toList ++
        "pgcrypto.control_backup".toList ∧
    compute_target_path both_sources "pgcrypto/lib.so".toList
        ("pgcrypto".toList ++ ".control".toList)
        (strlen ("pgcrypto".toList ++ ".control".toList)) =
      "/usr/lib/pginstall".toList ++ "/".toList ++ "pgcrypto/lib.so".toList :=
  ⟨(compute_target_path_spec both_sources "pgcrypto.control".toList
      "pgcrypto".toList).1 (by decide),
   (compute_target_path_spec both_sources "pgcrypto.control_backup".toList
      "pgcrypto".toList).1 (by decide),
   (compute_target_path_spec both_sources "pgcrypto/lib.so".toList
      "pgcrypto".toList).2.1 (by decide)⟩

/-! ## The catalog merge -/

/-- C10. With both sources in use and a non-empty cache list, the list
built is the cache list followed, for each repository entry `r` in order, by
`copies cache r` consecutive copies of `r`: as many as there are cache
entries in front of the first one with the shortname of `r`, or as the cache
has entries when none has it. So a repository entry whose shortname is that
of no cache entry is in the result, and with a cache of exactly one entry
the result is the one of the specification's merge rule. -/
theorem merge_loop_exact (cfg : Settings)
    (cache repo : List pginstall_extension)
    (hserve : cfg.pginstall_serve_from_archive_dir = true)
    (hrepo : repository_set cfg = true) (hne : cache ≠ []) :
    pginstall_available_extensions cfg cache repo =
      cache ++ repo.flatMap (fun r => List.replicate (copies cache r) r) ∧
    (∀ r ∈ repo, (∀ c ∈ cache, c.shortname ≠ r.shortname) →
      r ∈ pginstall_available_extensions cfg cache repo) ∧
    (∀ c, cache = [c] →
      pginstall_available_extensions cfg cache repo = merge_rule cache repo) := by
  have hexact := available_extensions_of_nonempty cfg cache repo hserve hrepo hne
  refine ⟨hexact, ?_, ?_⟩
  · intro r hr hnone
    rw [hexact, List.mem_append, List.mem_flatMap]
    right
    refine ⟨r, hr, ?_⟩
    have hlen : copies cache r = cache.length := by
      unfold copies
      rw [List.findIdx_eq_length]
      intro c hc
      simpa using hnone c hc
    have hpos : 0 < cache.length := List.length_pos.2 hne
    rw [List.mem_replicate]
    exact ⟨by omega, rfl⟩
  · intro c hc
    subst hc
    rw [hexact, flatMap_copies_singleton]
    rfl

/-- C10 on an example: a cache of two entries and a repository of two
entries, the first with the shortname of the second cache entry. -/
theorem merge_loop_exact_witness :
    pginstall_available_extensions both_sources
        [mk_ext "a" "A1", mk_ext "b" "A2"] [mk_ext "b" "B1", mk_ext "c" "B2"] =
      [mk_ext "a" "A1", mk_ext "b" "A2", mk_ext "b" "B1", mk_ext "c" "B2",
        mk_ext "c" "B2"] := by
  have h := (merge_loop_exact both_sources [mk_ext "a" "A1", mk_ext "b" "A2"]
    [mk_ext "b" "B1", mk_ext "c" "B2"] (by decide) (by decide) (by decide)).1
  rw [h]
  decide

/-- C8. With both sources in use, a cache list merged with an empty
repository list is the cache list, and a repository list merged with an
empty cache list is the repository list. -/
theorem merge_identity (cfg : Settings)
    (cache repo : List pginstall_extension)
    (hserve : cfg.pginstall_serve_from_archive_dir = true)
    (hrepo : repository_set cfg = true) :
    pginstall_available_extensions cfg cache [] = cache ∧
    pginstall_available_extensions cfg [] repo = repo := by
  constructor
  · by_cases hne : cache = []
    · simp [pginstall_available_extensions, hserve, hrepo, hne]
    · simp [pginstall_available_extensions, hserve, hrepo, hne, merge_outer]
  · simp [pginstall_available_extensions, hserve, hrepo]

/-- C8 on an example: one list of two entries on either side of the empty
list. -/
theorem merge_identity_witness :
    pginstall_available_extensions both_sources
        [mk_ext "foo" "A", mk_ext "bar" "B"] [] =
      [mk_ext "foo" "A", mk_ext "bar" "B"] ∧
    pginstall_available_extensions both_sources []
        [mk_ext "foo" "A", mk_ext "bar" "B"] =
      [mk_ext "foo" "A", mk_ext "bar" "B"] :=
  merge_identity both_sources [mk_ext "foo" "A", mk_ext "bar" "B"]
    [mk_ext "foo" "A", mk_ext "bar" "B"] (by decide) (by decide)

/-- C1 at a failing input. With both sources in use, the cache
[a, b] and the repository [c] give [a, b, c, c], where the merge rule gives
[a, b, c]: the repository entry is appended once per cache entry. The
example given with the claim, which has a single cache entry, comes out as
the claim says. -/
theorem merge_rule_broken :
    pginstall_available_extensions both_sources
        [mk_ext "a" "A1", mk_ext "b" "A2"] [mk_ext "c" "B1"] =
      [mk_ext "a" "A1", mk_ext "b" "A2", mk_ext "c" "B1", mk_ext "c" "B1"] ∧
    merge_rule [mk_ext "a" "A1", mk_ext "b" "A2"] [mk_ext "c" "B1"] =
      [mk_ext "a" "A1", mk_ext "b" "A2", mk_ext "c" "B1"] ∧
    pginstall_available_extensions both_sources
        [mk_ext "a" "A1", mk_ext "b" "A2"] [mk_ext "c" "B1"] ≠
      merge_rule [mk_ext "a" "A1", mk_ext "b" "A2"] [mk_ext "c" "B1"] ∧
    pginstall_available_extensions both_sources
        [mk_ext "foo" "A"] [mk_ext "foo" "B", mk_ext "bar" "C"] =
      [mk_ext "foo" "A", mk_ext "bar" "C"] := by
  decide

/-- C2 at a failing input. With both sources in use, the cache
[a, b] and the repository [b], each with pairwise distinct shortnames, give
[a, b (cache), b (repository)]: two entries share the shortname "b" and the
repository one is kept next to the cache one. -/
theorem merge_uniqueness_broken :
    ([mk_ext "a" "A1", mk_ext "b" "A2"].map (fun x => x.shortname)).Nodup ∧
    ([mk_ext "b" "B1"].map (fun x => x.shortname)).Nodup ∧
    pginstall_available_extensions both_sources
        [mk_ext "a" "A1", mk_ext "b" "A2"] [mk_ext "b" "B1"] =
      [mk_ext "a" "A1", mk_ext "b" "A2", mk_ext "b" "B1"] ∧
    ¬ ((pginstall_available_extensions both_sources
        [mk_ext "a" "A1", mk_ext "b" "A2"] [mk_ext "b" "B1"]).map
          (fun x => x.shortname)).Nodup := by
  decide


/-! ## The extraction loop -/

theorem extract_loop_resilient (cfg : Settings) (extname : CString)
    (entries : List ArchiveEntry)
    (hhead : ∀ e ∈ entries, e.header_r = ARCHIVE_OK)
    (hfin : ∀ e ∈ entries, e.write_header_r = ARCHIVE_OK →
      e.finish_r = ARCHIVE_OK) :
    extract_loop cfg (extname ++ ".control".toList)
        (strlen (extname ++ ".control".toList)) entries =
      (entries.flatMap (entry_calls cfg extname) ++
        [Event.archive_read_next_header ARCHIVE_EOF], Outcome.returned) := by
  induction entries with
  | nil => simp [extract_loop]
  | cons e rest ih =>
    have hrest := ih (fun x hx => hhead x (List.mem_cons_of_mem _ hx))
      (fun x hx => hfin x (List.mem_cons_of_mem _ hx))
    have hh : e.header_r = ARCHIVE_OK := hhead e (List.mem_cons_self _ _)
    have hne : ¬ e.header_r = ARCHIVE_EOF := by
      rw [hh]; decide
    rw [extract_loop, if_neg hne, if_neg (not_not.2 hh), hrest,
      List.flatMap_cons]
    by_cases hw : e.write_header_r = ARCHIVE_OK
    · have hf : e.finish_r = ARCHIVE_OK := hfin e (List.mem_cons_self _ _) hw
      simp [entry_calls, hw, hf, hh]
    · simp [entry_calls, hw, hh]

/-- C5. When the open and every header read succeed and every entry whose
header was written is finished with success, `extract` returns normally and
its calls are the set-up, then for each entry in archive order the calls of
`entry_calls`, then the end-of-archive read and the release of the reader.
An entry whose header write fails has exactly one warning and neither data
copy nor finish entry; every other entry has its header write, its data copy
and its finish entry. -/
theorem extract_resilient (cfg : Settings) (extname filename : CString)
    (ar : Archive) (hopen : ar.open_r = 0)
    (hhead : ∀ e ∈ ar.entries, e.header_r = ARCHIVE_OK)
    (hfin : ∀ e ∈ ar.entries, e.write_header_r = ARCHIVE_OK →
      e.finish_r = ARCHIVE_OK) :
    (extract cfg extname filename ar).2 = Outcome.returned ∧
    (extract cfg extname filename ar).1 =
      extract_setup filename ar ++ [Event.elog Elevel.DEBUG1] ++
        ar.entries.flatMap (entry_calls cfg extname) ++
        [Event.archive_read_next_header ARCHIVE_EOF,
         Event.archive_read_close, Event.archive_read_free] ∧
    (∀ e : ArchiveEntry, e.write_header_r ≠ ARCHIVE_OK →
      (entry_calls cfg extname e).count
          (Event.ereport Elevel.WARNING Errcode.ERRCODE_IO_ERROR) = 1 ∧
      ∀ ev ∈ entry_calls cfg extname e, is_copy_or_finish ev = false) ∧
    (∀ e : ArchiveEntry, e.write_header_r = ARCHIVE_OK →
      ∃ path, entry_calls cfg extname e =
        [Event.archive_read_next_header ARCHIVE_OK, Event.archive_entry_clone,
         Event.archive_entry_set_pathname path, Event.elog Elevel.DEBUG1,
         Event.archive_write_header path ARCHIVE_OK] ++
        (copy_data e.blocks).1 ++
        [Event.archive_write_finish_entry ARCHIVE_OK,
         Event.archive_entry_free]) := by
  have hloop := extract_loop_resilient cfg extname ar.entries hhead hfin
  have hrun : extract cfg extname filename ar =
      (extract_setup filename ar ++ [Event.elog Elevel.DEBUG1] ++
        (ar.entries.flatMap (entry_calls cfg extname) ++
          [Event.archive_read_next_header ARCHIVE_EOF]) ++
        [Event.archive_read_close, Event.archive_read_free],
       Outcome.returned) := by
    unfold extract
    simp only [hopen, ne_eq, not_true_eq_false, if_false, hloop]
  refine ⟨?_, ?_, ?_, ?_⟩
  · rw [hrun]
  · rw [hrun]
    simp
  · intro e hw
    constructor
    · simp [entry_calls, hw, List.count_cons]
    · intro ev hev
      simp only [entry_calls, if_neg hw] at hev
      simp at hev
      rcases hev with h | h | h | h | h | h | h <;> rw [h] <;> rfl
  · intro e hw
    refine ⟨compute_target_path cfg e.pathname (extname ++ ".control".toList)
      (strlen (extname ++ ".control".toList)), ?_⟩
    unfold entry_calls
    rw [if_pos hw, hw]
    simp

/-- C5 on the archive of three entries whose second header write fails:
the run returns normally, reports one warning, and writes and finishes the
first and the third entry only. -/
theorem extract_resilient_witness :
    (extract both_sources "foo".toList "foo.tar.gz".toList three_entries).2 =
      Outcome.returned ∧
    (extract both_sources "foo".toList "foo.tar.gz".toList three_entries).1.count
      (Event.ereport Elevel.WARNING Errcode.ERRCODE_IO_ERROR) = 1 ∧
    (extract both_sources "foo".toList "foo.tar.gz".toList
        three_entries).1.filter is_write_op =
      [Event.archive_write_header "/usr/share/extension/foo.control".toList 0,
       Event.archive_write_data_block [1, 2, 3] 0 0,
       Event.archive_write_finish_entry 0,
       Event.archive_write_header "/usr/lib/pginstall/foo/foo.so".toList (-25),
       Event.archive_write_header
         "/usr/lib/pginstall/foo/foo--1.0.sql".toList 0,
       Event.archive_write_data_block [1, 2, 3] 0 0,
       Event.archive_write_finish_entry 0] := by
  have h := extract_resilient both_sources "foo".toList "foo.tar.gz".toList
    three_entries (by decide) (by decide) (by decide)
  refine ⟨h.1, ?_, ?_⟩
  · rw [h.2.1]; decide
  · rw [h.2.1]; decide

theorem copy_data_not_fatal (blocks : List DataBlock) :
    ∀ ev ∈ (copy_data blocks).1, is_fatal_step ev = false := by
  induction blocks with
  | nil =>
    intro ev hev
    simp [copy_data] at hev
    subst hev
    rfl
  | cons b rest ih =>
    intro ev hev
    rw [copy_data] at hev
    split_ifs at hev
    · simp at hev
      subst hev
      rfl
    · simp at hev
      subst hev
      rfl
    · simp at hev
      rcases hev with h | h | h <;> subst h <;> rfl
    · simp only [List.mem_cons] at hev
      rcases hev with h | h | h
      · subst h; rfl
      · subst h; rfl
      · exact ih ev h

theorem loop_shape_append (calls : List Event) (run : List Event × Outcome)
    (hcalls : ∀ ev ∈ calls, is_fatal_step ev = false) (hrun : loop_shape run) :
    loop_shape (calls ++ run.1, run.2) := by
  rcases hrun with ⟨hret, hall⟩ | ⟨code, pre, step, hout, htr, hpre, hstep⟩
  · left
    refine ⟨hret, ?_⟩
    intro ev hev
    rcases List.mem_append.1 hev with h | h
    · exact hcalls ev h
    · exact hall ev h
  · right
    refine ⟨code, calls ++ pre, step, hout, ?_, ?_, hstep⟩
    · show calls ++ run.1 = calls ++ pre ++ [step, Event.ereport Elevel.ERROR code]
      rw [htr, List.append_assoc]
    · intro ev hev
      rcases List.mem_append.1 hev with h | h
      · exact hcalls ev h
      · exact hpre ev h

theorem extract_loop_shape (cfg : Settings) (cf : CString) (n : Nat)
    (entries : List ArchiveEntry) :
    loop_shape (extract_loop cfg cf n entries) := by
  induction entries with
  | nil =>
    left
    refine ⟨rfl, ?_⟩
    intro ev hev
    simp [extract_loop] at hev
    subst hev
    rfl
  | cons e rest ih =>
    rw [extract_loop]
    by_cases heof : e.header_r = ARCHIVE_EOF
    · left
      rw [if_pos heof]
      refine ⟨rfl, ?_⟩
      intro ev hev
      simp at hev
      subst hev
      simp [is_fatal_step, heof]
    · rw [if_neg heof]
      by_cases hok : e.header_r = ARCHIVE_OK
      · rw [if_neg (not_not.2 hok)]
        have hhead : ∀ ev ∈ [Event.archive_read_next_header e.header_r,
            Event.archive_entry_clone,
            Event.archive_entry_set_pathname
              (compute_target_path cfg e.pathname cf n),
            Event.elog Elevel.DEBUG1,
            Event.archive_write_header
              (compute_target_path cfg e.pathname cf n) e.write_header_r],
            is_fatal_step ev = false := by
          intro ev hev
          simp only [List.mem_cons, List.mem_singleton, List.not_mem_nil,
            or_false] at hev
          rcases hev with h | h | h | h | h <;> subst h
          · simp [is_fatal_step, hok]
          all_goals rfl
        have hcopy := copy_data_not_fatal e.blocks
        by_cases hw : e.write_header_r = ARCHIVE_OK
        · rw [if_neg (not_not.2 hw)]
          by_cases hf : e.finish_r = ARCHIVE_OK
          · rw [if_neg (not_not.2 hf)]
            apply loop_shape_append _ _ _ ih
            intro ev hev
            simp only [List.mem_append] at hev
            rcases hev with (h | h) | h
            · exact hhead ev h
            · exact hcopy ev h
            · simp only [List.mem_cons, List.mem_singleton, List.not_mem_nil,
                or_false] at h
              rcases h with h | h <;> subst h
              · simp [is_fatal_step, hf]
              · rfl
          · rw [if_pos hf]
            right
            refine ⟨Errcode.ERRCODE_IO_ERROR, _, Event.archive_write_finish_entry
              e.finish_r, rfl, rfl, ?_, Or.inr ⟨_, rfl, hf⟩⟩
            intro ev hev
            simp only [List.mem_append] at hev
            rcases hev with h | h
            · exact hhead ev h
            · exact hcopy ev h
        · rw [if_pos hw]
          apply loop_shape_append _ _ _ ih
          intro ev hev
          simp only [List.mem_append] at hev
          rcases hev with h | h
          · exact hhead ev h
          · simp only [List.mem_cons, List.mem_singleton, List.not_mem_nil,
              or_false] at h
            rcases h with h | h <;> subst h <;> rfl
      · rw [if_pos hok]
        right
        exact ⟨Errcode.ERRCODE_UNDEFINED_FILE, [],
          Event.archive_read_next_header e.header_r, rfl, rfl,
          fun _ h => absurd h (List.not_mem_nil _),
          Or.inl ⟨_, rfl, hok, heof⟩⟩

theorem after_fatal_step (pre : List Event) (step er : Event)
    (hpre : ∀ ev ∈ pre, is_fatal_step ev = false)
    (her : is_fatal_step er = false)
    (pre' : List Event) (step' : Event) (post' : List Event)
    (h : pre ++ [step, er] = pre' ++ step' :: post')
    (hf : is_fatal_step step' = true) : post' = [er] := by
  induction pre generalizing pre' with
  | nil =>
    cases pre' with
    | nil =>
      simp at h
      exact h.2.symm
    | cons x xs =>
      cases xs with
      | nil =>
        simp at h
        rw [← h.2.1, her] at hf
        exact absurd hf (by decide)
      | cons y ys => simp at h
  | cons a pre0 ih =>
    cases pre' with
    | nil =>
      simp at h
      have := hpre a (List.mem_cons_self _ _)
      rw [h.1, hf] at this
      exact absurd this (by decide)
    | cons x xs =>
      simp only [List.cons_append, List.cons.injEq] at h
      exact ih (fun ev hev => hpre ev (List.mem_cons_of_mem _ hev)) xs h.2

theorem extract_shape (cfg : Settings) (extname filename : CString)
    (ar : Archive) :
    (ar.open_r ≠ 0 ∧
      extract cfg extname filename ar =
        ([Event.archive_read_new, Event.archive_write_disk_new,
          Event.archive_write_disk_set_options ARCHIVE_EXTRACT_TIME,
          Event.archive_read_support_format_tar,
          Event.archive_read_support_filter_gzip] ++
         [Event.archive_read_open_filename filename 10240 ar.open_r,
          Event.ereport Elevel.ERROR Errcode.ERRCODE_INVALID_PARAMETER_VALUE],
         Outcome.error Errcode.ERRCODE_INVALID_PARAMETER_VALUE)) ∨
    (ar.open_r = 0 ∧ loop_shape (extract cfg extname filename ar) ∧
      ((extract cfg extname filename ar).2 = Outcome.returned →
        ∃ calls, (extract cfg extname filename ar).1 =
          calls ++ [Event.archive_read_close, Event.archive_read_free])) := by
  by_cases hopen : ar.open_r = 0
  · right
    refine ⟨hopen, ?_⟩
    have hsetup : ∀ ev ∈ extract_setup filename ar ++ [Event.elog Elevel.DEBUG1],
        is_fatal_step ev = false := by
      intro ev hev
      simp only [extract_setup, List.mem_append, List.mem_cons,
        List.mem_singleton, List.not_mem_nil, or_false] at hev
      rcases hev with (h | h | h | h | h | h) | h <;> subst h
      all_goals first | rfl | simp [is_fatal_step, hopen]
    have hshape := extract_loop_shape cfg (extname ++ ".control".toList)
      (strlen (extname ++ ".control".toList)) ar.entries
    unfold extract
    simp only [hopen, ne_eq, not_true_eq_false, if_false]
    rcases hL : extract_loop cfg (extname ++ ".control".toList)
      (strlen (extname ++ ".control".toList)) ar.entries with ⟨calls, out⟩
    rw [hL] at hshape
    cases out with
    | returned =>
      refine ⟨?_, fun _ => ⟨_, rfl⟩⟩
      left
      refine ⟨rfl, ?_⟩
      rcases hshape with ⟨_, hall⟩ | ⟨code, _, _, hout, _⟩
      · intro ev hev
        simp only [List.mem_append] at hev
        rcases hev with (h | h) | h
        · exact hsetup ev (List.mem_append.2 h)
        · exact hall ev h
        · simp only [List.mem_cons, List.mem_singleton, List.not_mem_nil,
            or_false] at h
          rcases h with h | h <;> subst h <;> rfl
      · exact absurd hout (by simp)
    | error code =>
      refine ⟨?_, fun h => absurd h (by simp)⟩
      exact loop_shape_append _ (calls, Outcome.error code) hsetup hshape
  · left
    refine ⟨hopen, ?_⟩
    unfold extract
    simp only [ne_eq, hopen, not_false_eq_true, if_true, extract_setup]
    rfl

theorem extract_loop_passes (cfg : Settings) (extname : CString)
    (pre rest : List ArchiveEntry) (hpre : ∀ x ∈ pre, entry_passes x) :
    extract_loop cfg (extname ++ ".control".toList)
        (strlen (extname ++ ".control".toList)) (pre ++ rest) =
      (pre.flatMap (entry_calls cfg extname) ++
        (extract_loop cfg (extname ++ ".control".toList)
          (strlen (extname ++ ".control".toList)) rest).1,
       (extract_loop cfg (extname ++ ".control".toList)
          (strlen (extname ++ ".control".toList)) rest).2) := by
  induction pre with
  | nil => simp
  | cons e pre0 ih =>
    have hrest := ih (fun x hx => hpre x (List.mem_cons_of_mem _ hx))
    have he := hpre e (List.mem_cons_self _ _)
    have hh : e.header_r = ARCHIVE_OK := he.1
    have hne : ¬ e.header_r = ARCHIVE_EOF := by
      rw [hh]; decide
    rw [List.cons_append, extract_loop, if_neg hne, if_neg (not_not.2 hh),
      hrest, List.flatMap_cons]
    by_cases hw : e.write_header_r = ARCHIVE_OK
    · have hf : e.finish_r = ARCHIVE_OK := he.2 hw
      simp [entry_calls, hw, hf, hh]
    · simp [entry_calls, hw, hh]

theorem extract_loop_error_cause (cfg : Settings) (cf : CString) (n : Nat)
    (entries : List ArchiveEntry) (code : Errcode)
    (h : (extract_loop cfg cf n entries).2 = Outcome.error code) :
    ∃ pre e post, entries = pre ++ e :: post ∧ (∀ x ∈ pre, entry_passes x) ∧
      ((e.header_r ≠ ARCHIVE_OK ∧ e.header_r ≠ ARCHIVE_EOF) ∨
       (e.header_r = ARCHIVE_OK ∧ e.write_header_r = ARCHIVE_OK ∧
        e.finish_r ≠ ARCHIVE_OK)) := by
  induction entries with
  | nil => simp [extract_loop] at h
  | cons e rest ih =>
    have hnext : (extract_loop cfg cf n rest).2 = Outcome.error code →
        entry_passes e →
        ∃ pre e' post, e :: rest = pre ++ e' :: post ∧
          (∀ x ∈ pre, entry_passes x) ∧
          ((e'.header_r ≠ ARCHIVE_OK ∧ e'.header_r ≠ ARCHIVE_EOF) ∨
           (e'.header_r = ARCHIVE_OK ∧ e'.write_header_r = ARCHIVE_OK ∧
            e'.finish_r ≠ ARCHIVE_OK)) := by
      intro hr hpass
      rcases ih hr with ⟨pre, e', post, hdec, hpre, hcause⟩
      refine ⟨e :: pre, e', post, by rw [hdec]; rfl, ?_, hcause⟩
      intro x hx
      rcases List.mem_cons.1 hx with hx | hx
      · rw [hx]; exact hpass
      · exact hpre x hx
    rw [extract_loop] at h
    by_cases heof : e.header_r = ARCHIVE_EOF
    · rw [if_pos heof] at h
      simp at h
    · rw [if_neg heof] at h
      by_cases hok : e.header_r = ARCHIVE_OK
      · rw [if_neg (not_not.2 hok)] at h
        by_cases hw : e.write_header_r = ARCHIVE_OK
        · rw [if_neg (not_not.2 hw)] at h
          by_cases hf : e.finish_r = ARCHIVE_OK
          · rw [if_neg (not_not.2 hf)] at h
            exact hnext h ⟨hok, fun _ => hf⟩
          · exact ⟨[], e, rest, rfl, fun _ hx => absurd hx (List.not_mem_nil _),
              Or.inr ⟨hok, hw, hf⟩⟩
        · rw [if_pos hw] at h
          exact hnext h ⟨hok, fun hw' => absurd hw' hw⟩
      · exact ⟨[], e, rest, rfl, fun _ hx => absurd hx (List.not_mem_nil _),
          Or.inl ⟨hok, heof⟩⟩

theorem extract_of_loop_error (cfg : Settings) (extname filename : CString)
    (ar : Archive) (hopen : ar.open_r = 0) (calls : List Event)
    (code : Errcode)
    (hloop : extract_loop cfg (extname ++ ".control".toList)
        (strlen (extname ++ ".control".toList)) ar.entries =
      (calls, Outcome.error code)) :
    extract cfg extname filename ar =
      (extract_setup filename ar ++ [Event.elog Elevel.DEBUG1] ++ calls,
       Outcome.error code) := by
  unfold extract
  simp only [hopen, ne_eq, not_true_eq_false, if_false, hloop]

theorem extract_error_iff_loop (cfg : Settings) (extname filename : CString)
    (ar : Archive) (hopen : ar.open_r = 0) (code : Errcode) :
    (extract cfg extname filename ar).2 = Outcome.error code ↔
      (extract_loop cfg (extname ++ ".control".toList)
        (strlen (extname ++ ".control".toList)) ar.entries).2 =
        Outcome.error code := by
  unfold extract
  simp only [hopen, ne_eq, not_true_eq_false, if_false]
  rcases hL : extract_loop cfg (extname ++ ".control".toList)
    (strlen (extname ++ ".control".toList)) ar.entries with ⟨calls, out⟩
  cases out <;> simp

theorem extract_fatal_calls (cfg : Settings) (extname filename : CString)
    (ar : Archive) :
    ((∃ code, (extract cfg extname filename ar).2 = Outcome.error code) ↔
      (ar.open_r ≠ 0 ∨
       (∃ r, Event.archive_read_next_header r ∈
            (extract cfg extname filename ar).1 ∧
          r ≠ ARCHIVE_OK ∧ r ≠ ARCHIVE_EOF) ∨
       (∃ r, Event.archive_write_finish_entry r ∈
            (extract cfg extname filename ar).1 ∧ r ≠ ARCHIVE_OK))) ∧
    (∀ code, (extract cfg extname filename ar).2 = Outcome.error code →
      ∃ pre step, (extract cfg extname filename ar).1 =
          pre ++ [step, Event.ereport Elevel.ERROR code] ∧
        is_fatal_step step = true) ∧
    (∀ pre step post, (extract cfg extname filename ar).1 = pre ++ step :: post →
      is_fatal_step step = true → ∀ ev ∈ post, is_write_op ev = false) ∧
    (ar.open_r ≠ 0 →
      ∀ ev ∈ (extract cfg extname filename ar).1, is_write_op ev = false) := by
  have hkind : ∀ step : Event,
      ((∃ r, step = Event.archive_read_next_header r ∧
          r ≠ ARCHIVE_OK ∧ r ≠ ARCHIVE_EOF) ∨
       (∃ r, step = Event.archive_write_finish_entry r ∧ r ≠ ARCHIVE_OK)) →
      is_fatal_step step = true := by
    rintro step (⟨r, rfl, h1, h2⟩ | ⟨r, rfl, h1⟩)
    · simp [is_fatal_step, h1, h2]
    · simp [is_fatal_step, h1]
  rcases extract_shape cfg extname filename ar with
    ⟨hopen, hrun⟩ | ⟨hopen, hshape, _⟩
  · rw [hrun]
    refine ⟨?_, ?_, ?_, ?_⟩
    · exact ⟨fun _ => Or.inl hopen, fun _ => ⟨_, rfl⟩⟩
    · intro code hcode
      simp only [Outcome.error.injEq] at hcode
      subst hcode
      exact ⟨_, _, rfl, by simp [is_fatal_step, hopen]⟩
    · intro pre step post hdec hfatal ev hev
      have hpost := after_fatal_step _ _ _ (by decide) (by rfl) pre step post
        hdec hfatal
      rw [hpost] at hev
      simp only [List.mem_singleton] at hev
      subst hev
      rfl
    · intro _ ev hev
      simp only [List.mem_append, List.mem_cons, List.mem_singleton,
        List.not_mem_nil, or_false] at hev
      rcases hev with (h | h | h | h | h) | h | h <;> subst h <;> rfl
  · rcases hshape with ⟨hret, hall⟩ | ⟨code, pre, step, hout, htr, hpre, hstep⟩
    · refine ⟨?_, ?_, ?_, ?_⟩
      · constructor
        · rintro ⟨code, hcode⟩
          rw [hret] at hcode
          exact absurd hcode (by simp)
        · rintro (h | ⟨r, hmem, h1, h2⟩ | ⟨r, hmem, h1⟩)
          · exact absurd hopen h
          · have := hall _ hmem
            simp [is_fatal_step, h1, h2] at this
          · have := hall _ hmem
            simp [is_fatal_step, h1] at this
      · intro code hcode
        rw [hret] at hcode
        exact absurd hcode (by simp)
      · intro pre step post hdec hfatal
        have := hall step (by rw [hdec]; simp)
        rw [hfatal] at this
        exact absurd this (by decide)
      · intro h
        exact absurd hopen h
    · refine ⟨?_, ?_, ?_, ?_⟩
      · constructor
        · intro _
          right
          have hmem : step ∈ (extract cfg extname filename ar).1 := by
            rw [htr]; simp
          rcases hstep with ⟨r, rfl, h1, h2⟩ | ⟨r, rfl, h1⟩
          · exact Or.inl ⟨r, hmem, h1, h2⟩
          · exact Or.inr ⟨r, hmem, h1⟩
        · intro _
          exact ⟨code, hout⟩
      · intro code' hcode
        rw [hout] at hcode
        simp only [Outcome.error.injEq] at hcode
        subst hcode
        exact ⟨pre, step, htr, hkind step hstep⟩
      · intro pre' step' post' hdec hfatal ev hev
        rw [htr] at hdec
        have hpost := after_fatal_step pre step _ hpre (by rfl) pre' step' post'
          hdec hfatal
        rw [hpost] at hev
        simp only [List.mem_singleton] at hev
        subst hev
        rfl
      · intro h
        exact absurd hopen h

/-- C6. `extract` ends on an `ERROR` exactly when the archive cannot be
opened, or it opens and some entry, reached past entries that all pass, has
a header read answering neither `ARCHIVE_OK` nor `ARCHIVE_EOF` or a finish
entry that fails after its header was read and written. In each of the
three cases the run is given call by call: it stops on the failing step and
the error report, so the entries after the failing one get no call, and a
failed open is followed by no header write, data block write or finish
entry at all. On the calls of any run: an `ERROR` is the same as a failed
open, a failed header read or a failed finish entry among the calls made,
the failing step is the last call before the report, and no call after a
failing step is a write. -/
theorem extract_fatal (cfg : Settings) (extname filename : CString)
    (ar : Archive) :
    ((∃ code, (extract cfg extname filename ar).2 = Outcome.error code) ↔
      (ar.open_r ≠ 0 ∨
       ∃ pre e post, ar.entries = pre ++ e :: post ∧
         (∀ x ∈ pre, entry_passes x) ∧
         ((e.header_r ≠ ARCHIVE_OK ∧ e.header_r ≠ ARCHIVE_EOF) ∨
          (e.header_r = ARCHIVE_OK ∧ e.write_header_r = ARCHIVE_OK ∧
           e.finish_r ≠ ARCHIVE_OK)))) ∧
    (ar.open_r ≠ 0 →
      extract cfg extname filename ar =
        (extract_setup filename ar ++
          [Event.ereport Elevel.ERROR Errcode.ERRCODE_INVALID_PARAMETER_VALUE],
         Outcome.error Errcode.ERRCODE_INVALID_PARAMETER_VALUE)) ∧
    (ar.open_r = 0 → ∀ pre e post, ar.entries = pre ++ e :: post →
      (∀ x ∈ pre, entry_passes x) →
      e.header_r ≠ ARCHIVE_OK → e.header_r ≠ ARCHIVE_EOF →
      extract cfg extname filename ar =
        (extract_setup filename ar ++ [Event.elog Elevel.DEBUG1] ++
          (pre.flatMap (entry_calls cfg extname) ++
            [Event.archive_read_next_header e.header_r,
             Event.ereport Elevel.ERROR Errcode.ERRCODE_UNDEFINED_FILE]),
         Outcome.error Errcode.ERRCODE_UNDEFINED_FILE)) ∧
    (ar.open_r = 0 → ∀ pre e post, ar.entries = pre ++ e :: post →
      (∀ x ∈ pre, entry_passes x) →
      e.header_r = ARCHIVE_OK → e.write_header_r = ARCHIVE_OK →
      e.finish_r ≠ ARCHIVE_OK →
      extract cfg extname filename ar =
        (extract_setup filename ar ++ [Event.elog Elevel.DEBUG1] ++
          (pre.flatMap (entry_calls cfg extname) ++
            ([Event.archive_read_next_header ARCHIVE_OK,
              Event.archive_entry_clone,
              Event.archive_entry_set_pathname
                (compute_target_path cfg e.pathname
                  (extname ++ ".control".toList)
                  (strlen (extname ++ ".control".toList))),
              Event.elog Elevel.DEBUG1,
              Event.archive_write_header
                (compute_target_path cfg e.pathname
                  (extname ++ ".control".toList)
                  (strlen (extname ++ ".control".toList))) ARCHIVE_OK] ++
             (copy_data e.blocks).1 ++
             [Event.archive_write_finish_entry e.finish_r,
              Event.ereport Elevel.ERROR Errcode.ERRCODE_IO_ERROR])),
         Outcome.error Errcode.ERRCODE_IO_ERROR)) ∧
    ((∃ code, (extract cfg extname filename ar).2 = Outcome.error code) ↔
      (ar.open_r ≠ 0 ∨
       (∃ r, Event.archive_read_next_header r ∈
            (extract cfg extname filename ar).1 ∧
          r ≠ ARCHIVE_OK ∧ r ≠ ARCHIVE_EOF) ∨
       (∃ r, Event.archive_write_finish_entry r ∈
            (extract cfg extname filename ar).1 ∧ r ≠ ARCHIVE_OK))) ∧
    (∀ code, (extract cfg extname filename ar).2 = Outcome.error code →
      ∃ pre step, (extract cfg extname filename ar).1 =
          pre ++ [step, Event.ereport Elevel.ERROR code] ∧
        is_fatal_step step = true) ∧
    (∀ pre step post, (extract cfg extname filename ar).1 = pre ++ step :: post →
      is_fatal_step step = true → ∀ ev ∈ post, is_write_op ev = false) ∧
    (ar.open_r ≠ 0 →
      ∀ ev ∈ (extract cfg extname filename ar).1, is_write_op ev = false) := by
  have hopenfail : ar.open_r ≠ 0 →
      extract cfg extname filename ar =
        (extract_setup filename ar ++
          [Event.ereport Elevel.ERROR Errcode.ERRCODE_INVALID_PARAMETER_VALUE],
         Outcome.error Errcode.ERRCODE_INVALID_PARAMETER_VALUE) := by
    intro hopen
    unfold extract
    simp only [ne_eq, hopen, not_false_eq_true, if_true]
  have hhead : ar.open_r = 0 → ∀ pre e post, ar.entries = pre ++ e :: post →
      (∀ x ∈ pre, entry_passes x) →
      e.header_r ≠ ARCHIVE_OK → e.header_r ≠ ARCHIVE_EOF →
      extract cfg extname filename ar =
        (extract_setup filename ar ++ [Event.elog Elevel.DEBUG1] ++
          (pre.flatMap (entry_calls cfg extname) ++
            [Event.archive_read_next_header e.header_r,
             Event.ereport Elevel.ERROR Errcode.ERRCODE_UNDEFINED_FILE]),
         Outcome.error Errcode.ERRCODE_UNDEFINED_FILE) := by
    intro hopen pre e post hdec hpre hok heof
    apply extract_of_loop_error cfg extname filename ar hopen
    rw [hdec, extract_loop_passes cfg extname pre (e :: post) hpre, extract_loop,
      if_neg heof, if_pos hok]
  have hfin : ar.open_r = 0 → ∀ pre e post, ar.entries = pre ++ e :: post →
      (∀ x ∈ pre, entry_passes x) →
      e.header_r = ARCHIVE_OK → e.write_header_r = ARCHIVE_OK →
      e.finish_r ≠ ARCHIVE_OK →
      extract cfg extname filename ar =
        (extract_setup filename ar ++ [Event.elog Elevel.DEBUG1] ++
          (pre.flatMap (entry_calls cfg extname) ++
            ([Event.archive_read_next_header ARCHIVE_OK,
              Event.archive_entry_clone,
              Event.archive_entry_set_pathname
                (compute_target_path cfg e.pathname
                  (extname ++ ".control".toList)
                  (strlen (extname ++ ".control".toList))),
              Event.elog Elevel.DEBUG1,
              Event.archive_write_header
                (compute_target_path cfg e.pathname
                  (extname ++ ".control".toList)
                  (strlen (extname ++ ".control".toList))) ARCHIVE_OK] ++
             (copy_data e.blocks).1 ++
             [Event.archive_write_finish_entry e.finish_r,
              Event.ereport Elevel.ERROR Errcode.ERRCODE_IO_ERROR])),
         Outcome.error Errcode.ERRCODE_IO_ERROR) := by
    intro hopen pre e post hdec hpre hok hw hf
    apply extract_of_loop_error cfg extname filename ar hopen
    have hne : ¬ e.header_r = ARCHIVE_EOF := by
      rw [hok]; decide
    rw [hdec, extract_loop_passes cfg extname pre (e :: post) hpre, extract_loop,
      if_neg hne, if_neg (not_not.2 hok), if_neg (not_not.2 hw), if_pos hf,
      hok, hw]
  refine ⟨?_, hopenfail, hhead, hfin,
    extract_fatal_calls cfg extname filename ar⟩
  constructor
  · rintro ⟨code, hcode⟩
    by_cases hopen : ar.open_r = 0
    · right
      exact extract_loop_error_cause cfg _ _ ar.entries code
        ((extract_error_iff_loop cfg extname filename ar hopen code).1 hcode)
    · exact Or.inl hopen
  · rintro (hopen | ⟨pre, e, post, hdec, hpre, hcause⟩)
    · exact ⟨_, by rw [hopenfail hopen]⟩
    · by_cases hopen : ar.open_r = 0
      · rcases hcause with ⟨hok, heof⟩ | ⟨hok, hw, hf⟩
        · exact ⟨_, by rw [hhead hopen pre e post hdec hpre hok heof]⟩
        · exact ⟨_, by rw [hfin hopen pre e post hdec hpre hok hw hf]⟩
      · exact ⟨_, by rw [hopenfail hopen]⟩

/-- C6 on three failing archives. A second header read answering -30
ends the run on `ERRCODE_UNDEFINED_FILE` with only the first entry written;
a second finish entry answering -25 ends it on `ERRCODE_IO_ERROR` with the
third entry untouched; an archive that cannot be opened ends it on
`ERRCODE_INVALID_PARAMETER_VALUE` with no write at all. -/
theorem extract_fatal_witness :
    ((extract both_sources "foo".toList "foo.tar.gz".toList
        bad_header_archive).2 =
      Outcome.error Errcode.ERRCODE_UNDEFINED_FILE ∧
     (extract both_sources "foo".toList "foo.tar.gz".toList
        bad_header_archive).1.filter is_write_op =
      [Event.archive_write_header "/usr/share/extension/foo.control".toList 0,
       Event.archive_write_data_block [1, 2, 3] 0 0,
       Event.archive_write_finish_entry 0]) ∧
    ((extract both_sources "foo".toList "foo.tar.gz".toList
        bad_finish_archive).2 =
      Outcome.error Errcode.ERRCODE_IO_ERROR ∧
     (extract both_sources "foo".toList "foo.tar.gz".toList
        bad_finish_archive).1.filter is_write_op =
      [Event.archive_write_header "/usr/share/extension/foo.control".toList 0,
       Event.archive_write_data_block [1, 2, 3] 0 0,
       Event.archive_write_finish_entry 0,
       Event.archive_write_header "/usr/lib/pginstall/foo/foo.so".toList 0,
       Event.archive_write_data_block [1, 2, 3] 0 0,
       Event.archive_write_finish_entry (-25)]) ∧
    ((extract both_sources "foo".toList "foo.tar.gz".toList
        unopened_archive).2 =
      Outcome.error Errcode.ERRCODE_INVALID_PARAMETER_VALUE ∧
     (extract both_sources "foo".toList "foo.tar.gz".toList
        unopened_archive).1.filter is_write_op = []) := by
  have h1 := (extract_fatal both_sources "foo".toList "foo.tar.gz".toList
    bad_header_archive).2.2.1 (by decide) [good_entry "foo.control"]
    { good_entry "foo/foo.so" with header_r := -30 }
    [good_entry "foo/foo--1.0.sql"] (by decide) (by decide) (by decide)
    (by decide)
  have h2 := (extract_fatal both_sources "foo".toList "foo.tar.gz".toList
    bad_finish_archive).2.2.2.1 (by decide) [good_entry "foo.control"]
    { good_entry "foo/foo.so" with finish_r := -25 }
    [good_entry "foo/foo--1.0.sql"] (by decide) (by decide) (by decide)
    (by decide) (by decide)
  have h3 := (extract_fatal both_sources "foo".toList "foo.tar.gz".toList
    unopened_archive).2.1 (by decide)
  refine ⟨⟨?_, ?_⟩, ⟨?_, ?_⟩, ⟨?_, ?_⟩⟩
  · rw [h1]
  · rw [h1]; decide
  · rw [h2]
  · rw [h2]; decide
  · rw [h3]
  · rw [h3]; decide

theorem copy_data_no_release (blocks : List DataBlock) :
    ∀ ev ∈ (copy_data blocks).1, is_writer_release ev = false := by
  induction blocks with
  | nil =>
    intro ev hev
    simp [copy_data] at hev
    subst hev
    rfl
  | cons b rest ih =>
    intro ev hev
    rw [copy_data] at hev
    split_ifs at hev
    · simp at hev
      subst hev
      rfl
    · simp at hev
      subst hev
      rfl
    · simp at hev
      rcases hev with h | h | h <;> subst h <;> rfl
    · simp only [List.mem_cons] at hev
      rcases hev with h | h | h
      · subst h; rfl
      · subst h; rfl
      · exact ih ev h

theorem extract_loop_no_release (cfg : Settings) (cf : CString) (n : Nat)
    (entries : List ArchiveEntry) :
    ∀ ev ∈ (extract_loop cfg cf n entries).1, is_writer_release ev = false := by
  induction entries with
  | nil =>
    intro ev hev
    simp [extract_loop] at hev
    subst hev
    rfl
  | cons e rest ih =>
    have hcopy := copy_data_no_release e.blocks
    rw [extract_loop]
    split_ifs <;>
      simp only [List.forall_mem_append, List.forall_mem_cons, List.mem_cons,
        List.mem_singleton, List.not_mem_nil, forall_eq_or_imp, forall_eq,
        is_writer_release, and_true, true_and, IsEmpty.forall_iff,
        implies_true] <;>
      first
        | exact ih
        | exact hcopy
        | exact ⟨hcopy, ih⟩

/-- C9 at a failing input, and on every run. On the archive that opens
and holds no entry, `extract` reaches the end of the archive and returns
after closing and releasing the reader handle only: its calls are listed and
none of them closes or releases the disk-writer handle. The same holds of
every run: no call of `extract` is `archive_write_close` or
`archive_write_free`, and a run that returns ends with `archive_read_close`
and `archive_read_free`. -/
theorem writer_handle_not_released :
    extract both_sources "foo".toList "foo.tar.gz".toList empty_archive =
      ([Event.archive_read_new,
        Event.archive_write_disk_new,
        Event.archive_write_disk_set_options ARCHIVE_EXTRACT_TIME,
        Event.archive_read_support_format_tar,
        Event.archive_read_support_filter_gzip,
        Event.archive_read_open_filename "foo.tar.gz".toList 10240 0,
        Event.elog Elevel.DEBUG1,
        Event.archive_read_next_header ARCHIVE_EOF,
        Event.archive_read_close,
        Event.archive_read_free], Outcome.returned) ∧
    (∀ (cfg : Settings) (extname filename : CString) (ar : Archive),
      (∀ ev ∈ (extract cfg extname filename ar).1, is_writer_release ev = false) ∧
      ((extract cfg extname filename ar).2 = Outcome.returned →
        ∃ calls, (extract cfg extname filename ar).1 =
          calls ++ [Event.archive_read_close, Event.archive_read_free])) := by
  refine ⟨by decide, ?_⟩
  intro cfg extname filename ar
  constructor
  · have hloop := extract_loop_no_release cfg (extname ++ ".control".toList)
      (strlen (extname ++ ".control".toList)) ar.entries
    unfold extract
    by_cases hopen : ar.open_r = 0
    · simp only [hopen, ne_eq, not_true_eq_false, if_false]
      rcases hL : extract_loop cfg (extname ++ ".control".toList)
        (strlen (extname ++ ".control".toList)) ar.entries with ⟨calls, out⟩
      rw [hL] at hloop
      cases out <;>
        simp only [extract_setup, List.forall_mem_append, List.forall_mem_cons,
          List.mem_cons, List.mem_singleton, List.not_mem_nil, forall_eq_or_imp,
          forall_eq, is_writer_release, and_true, true_and, IsEmpty.forall_iff,
          implies_true] <;>
        exact hloop
    · simp only [ne_eq, hopen, not_false_eq_true, if_true, extract_setup]
      intro ev hev
      simp only [List.mem_append, List.mem_cons, List.mem_singleton,
        List.not_mem_nil, or_false] at hev
      rcases hev with (h | h | h | h | h | h) | h <;> subst h <;> rfl
  · rcases extract_shape cfg extname filename ar with ⟨_, hrun⟩ | ⟨_, _, hend⟩
    · intro h
      rw [hrun] at h
      exact absurd h (by simp)
    · exact hend

end PgInstall
